import Mathlib

/-!
Shallow embedding of the lifesim simulator core (`src/simulate.cc`).

Machine `double` arithmetic is modelled by exact rationals `ℚ`; the C
library exponential `std::exp` is an external function, modelled by an
explicit parameter `E : ℚ → ℚ` wherever a model's update rule calls it.
Class state is split into the base-class fields (`ModelBase`) and a
subclass-state type parameter `σ`, and the virtual `update`
(resp. `update_amount`) hook becomes a function argument, mirroring the
virtual dispatch in the source.
-/

namespace Lifesim

/-- Base-class state of `ModelBase` (simulate.cc:13-69): activation window
`start`/`duration`, the time cursor `year`, and the subclass state `sub`. -/
structure ModelBase (σ : Type) where
  start : ℚ
  duration : ℚ
  year : ℚ
  sub : σ

/-- `ModelBase::end()` (simulate.cc:39): `start() + duration_`. -/
def ModelBase.end_ {σ : Type} (m : ModelBase σ) : ℚ :=
  m.start + m.duration

/-- `ModelBase::update_to` (simulate.cc:42-54): compute `dt` against the
previous cursor, move the cursor unconditionally, gate on the activation
window and on `dt <= 0`, otherwise delegate to the virtual `update(dt)`
(here the argument `upd`, which like the C++ hook may read the new cursor
value). -/
def ModelBase.update_to {σ : Type} (upd : ℚ → ℚ → σ → ℚ × σ) (m : ModelBase σ)
    (year : ℚ) : ℚ × ModelBase σ :=
  let dt := year - m.year
  let m' : ModelBase σ := { m with year := year }
  if year < m'.start then (0, m')
  else if m'.end_ ≤ year then (0, m')
  else if dt ≤ 0 then (0, m')
  else
    let p := upd year dt m'.sub
    (p.1, { m' with sub := p.2 })

/-- Subclass state of `Job` (simulate.cc:240-269). -/
structure JobState where
  salary : ℚ
  rate : ℚ

/-- `Job::update` (simulate.cc:257-264): on a year-boundary crossing the
salary is first multiplied by `exp(rate)`; the step income is `dt * salary`.
`E` stands for `std::exp`. -/
def Job.update (E : ℚ → ℚ) (year dt : ℚ) (j : JobState) : ℚ × JobState :=
  let previous := year - dt
  let salary := if ⌊previous⌋ ≠ ⌊year⌋ then j.salary * E j.rate else j.salary
  (dt * salary, { j with salary := salary })

/-- Subclass state of `Spending` (simulate.cc:271-308). -/
structure SpendingState where
  annual : ℚ
  rate : ℚ
  linear : Bool

/-- `Spending::update` (simulate.cc:293-301): grow `annual` linearly or
exponentially, then charge `dt * annual`. -/
def Spending.update (E : ℚ → ℚ) (year dt : ℚ) (s : SpendingState) :
    ℚ × SpendingState :=
  let _ := year
  let annual := if s.linear then s.annual + dt * s.rate
    else s.annual * E (s.rate * dt)
  (dt * annual, { s with annual := annual })

/-- Subclass state of `Cost` (simulate.cc:310-364).  At configuration time
the source sets `total_ = remaining_ = <value>` (simulate.cc:314). -/
structure CostState where
  total : ℚ
  remaining : ℚ
  down : ℚ
  close : ℚ

/-- `Cost::update_to` (simulate.cc:330-355): overrides the base dispatch.
Before `start`: 0; strictly after `end()`: flush `remaining_ + close_` and
zero both; an unpaid `down_ > 0`: pay it and subtract it from `total_` and
`remaining_`; otherwise amortize `dt * total_ / (end - start)` capped at
`remaining_`. -/
def Cost.update_to (m : ModelBase CostState) (year : ℚ) : ℚ × ModelBase CostState :=
  let dt := year - m.year
  let m' : ModelBase CostState := { m with year := year }
  if year < m'.start then (0, m')
  else if m'.end_ < year then
    (m'.sub.remaining + m'.sub.close,
      { m' with sub := { m'.sub with remaining := 0, close := 0 } })
  else if 0 < m'.sub.down then
    (m'.sub.down,
      { m' with sub := { m'.sub with
          total := m'.sub.total - m'.sub.down,
          remaining := m'.sub.remaining - m'.sub.down,
          down := 0 } })
  else
    let amount := dt * m'.sub.total / (m'.end_ - m'.start)
    let amount2 := min m'.sub.remaining amount
    (amount2, { m' with sub := { m'.sub with remaining := m'.sub.remaining - amount2 } })

/-- Subclass state of `FundBase` (simulate.cc:71-141): the balance
`amount`, the annual `contribution_limit` (`0` = unlimited) and the
per-calendar-year contribution map (`std::map` defaults absent keys to 0,
modelled as a total function on `ℤ`). -/
structure FundState where
  contribution_limit : ℚ
  amount : ℚ
  contributed : ℤ → ℚ

/-- A fund is a `ModelBase` carrying `FundState`. -/
abbrev Fund := ModelBase FundState

/-- `FundBase::buy` (simulate.cc:90-105): reject negative input; when a
positive limit is set, cap by `limit - contributed_[floor(year())]` and
record the contribution; add the absorbed amount to the balance and return
it.  There is no activation-window check. -/
def FundBase.buy (f : Fund) (amount : ℚ) : ℚ × Fund :=
  if amount < 0 then (0, f)
  else if 0 < f.sub.contribution_limit then
    let k := ⌊f.year⌋
    let contributed := f.sub.contributed k
    let remaining := f.sub.contribution_limit - contributed
    let amount' := min amount remaining
    (amount', { f with sub := { f.sub with
        contributed := fun j => if j = k then contributed + amount' else f.sub.contributed j,
        amount := f.sub.amount + amount' } })
  else
    (amount, { f with sub := { f.sub with amount := f.sub.amount + amount } })

/-- `FundBase::sell` (simulate.cc:107-123): 0 before the fund's `start` or
on negative input; otherwise withdraw the requested amount clamped to the
balance. -/
def FundBase.sell (f : Fund) (amount : ℚ) : ℚ × Fund :=
  if f.year < f.start then (0, f)
  else if amount < 0 then (0, f)
  else if amount ≤ f.sub.amount then
    (amount, { f with sub := { f.sub with amount := f.sub.amount - amount } })
  else
    (f.sub.amount, { f with sub := { f.sub with amount := 0 } })

/-- `FundBase::update_to` (simulate.cc:125-129): bypasses the base gate
entirely; moves the cursor, replaces the balance by
`update_amount(amount_, dt)` (the virtual hook `ua`, which like the C++
hook may read the new cursor value), and returns the new balance. -/
def FundBase.update_to (ua : ℚ → ℚ → ℚ → ℚ) (f : Fund) (year : ℚ) : ℚ × Fund :=
  let dt := year - f.year
  let f' : Fund := { f with year := year }
  let a := ua year f'.sub.amount dt
  (a, { f' with sub := { f'.sub with amount := a } })

/-- `FixedRateFund::update_amount` (simulate.cc:156-158):
`amount * exp(rate * dt)`. -/
def FixedRateFund.update_amount (E : ℚ → ℚ) (rate : ℚ) (year amount dt : ℚ) : ℚ :=
  let _ := year
  amount * E (rate * dt)

/-- The stored `wrap_around_multiplier_` (simulate.cc:189):
`data[data_size - 1] / data[0]` (`float` samples modelled as `ℚ`). -/
def wrap_around_multiplier (data : List ℚ) : ℚ :=
  data.getD (data.length - 1) 0 / data.getD 0 0

/-- `MarketFund::lookup` (simulate.cc:205-219): day index
`before = floor(year * 365.25 + day_offset_)`; inside the recorded range
return the sample, past twice the range throw (modelled as `none`),
in between return `wrap_around_multiplier_ * data[before % data_size]`.
The `size_t` conversion of the floored day is modelled by `Int.toNat`,
faithful for non-negative day indices. -/
def MarketFund.lookup (data : List ℚ) (day_offset year : ℚ) : Option ℚ :=
  let day := year * (1461 / 4) + day_offset
  let before := (⌊day⌋).toNat
  if h : before < data.length then some (data.get ⟨before, h⟩)
  else if h2 : 2 * data.length ≤ before then none
  else some (wrap_around_multiplier data *
    data.get ⟨before % data.length, by
      rcases Nat.eq_zero_or_pos data.length with h0 | h0
      · omega
      · exact Nat.mod_lt _ h0⟩)

/-!
The per-run simulation driver (`main`, simulate.cc:464-547).  Income and
expense models are heterogeneous (`Job`, `Spending`, `Cost`), captured by a
sum type; the funds in `main` are `MarketFund`s, but the driver only calls
them through the virtual `update_to`/`buy`/`sell` interface, so the fund
growth rule stays a parameter `fu` (a `FundBase.update_to` instance). -/

/-- A concrete `ModelBase::Ptr` target: one of the three flow-model
subclasses constructed in `main` (simulate.cc:430-437). -/
inductive AnyModel where
  | job : ModelBase JobState → AnyModel
  | spending : ModelBase SpendingState → AnyModel
  | cost : ModelBase CostState → AnyModel

/-- Virtual dispatch of `update_to` on an `AnyModel`: `Job` and `Spending`
go through the base gate (simulate.cc:42-54), `Cost` through its override
(simulate.cc:330-355). -/
def AnyModel.update_to (E : ℚ → ℚ) : AnyModel → ℚ → ℚ × AnyModel
  | .job m, y =>
      let p := ModelBase.update_to (Job.update E) m y
      (p.1, .job p.2)
  | .spending m, y =>
      let p := ModelBase.update_to (Spending.update E) m y
      (p.1, .spending p.2)
  | .cost m, y =>
      let p := Cost.update_to m y
      (p.1, .cost p.2)

/-- One aggregation loop of `main` (simulate.cc:489-497 and 507-515):
advance every model to `year`, summing the results. -/
def updateAll (E : ℚ → ℚ) (year : ℚ) : List AnyModel → ℚ × List AnyModel
  | [] => (0, [])
  | m :: rest =>
      let p := AnyModel.update_to E m year
      let q := updateAll E year rest
      (p.1 + q.1, p.2 :: q.2)

/-- Sum of fund balances (simulate.cc:500-504 and 550-553). -/
def totalAmount (funds : List Fund) : ℚ :=
  (funds.map fun f => f.sub.amount).sum

/-- The investment loop of `main` (simulate.cc:522-529): it walks the fund
vector at index `reverse_i = size - 1 - i`, i.e. the LAST-listed fund is
updated and offered `buy` first; each call reduces `to_invest` by the
absorbed amount.  Processing the list tail before the head reproduces that
reverse traversal. -/
def buyPass (fu : Fund → ℚ → ℚ × Fund) (year : ℚ) :
    List Fund → ℚ → List Fund × ℚ
  | [], to_invest => ([], to_invest)
  | f :: rest, to_invest =>
      let q := buyPass fu year rest to_invest
      let f1 := (fu f year).2
      let p := FundBase.buy f1 q.2
      (p.2 :: q.1, q.2 - p.1)

/-- The withdrawal loop of `main` (simulate.cc:530-537): forward traversal,
the FIRST-listed fund is sold from first; each call reduces `to_spend` by
the withdrawn amount. -/
def sellPass : List Fund → ℚ → List Fund × ℚ
  | [], to_spend => ([], to_spend)
  | f :: rest, to_spend =>
      let p := FundBase.sell f to_spend
      let q := sellPass rest (to_spend - p.1)
      (p.2 :: q.1, q.2)

/-- Per-run mutable state of `main` (simulate.cc:466-478). -/
structure SimState where
  income_models : List AnyModel
  expense_models : List AnyModel
  market_models : List Fund
  bankrupt : Bool
  retirement_value : Option ℚ

/-- Initial per-run state (simulate.cc:466-478): cloned models,
`bankrupt = false`, no retirement snapshot. -/
def SimState.init (incomes expenses : List AnyModel) (funds : List Fund) : SimState :=
  ⟨incomes, expenses, funds, false, none⟩

/-- One weekly timestep of `main` (simulate.cc:484-546), returning the new
state together with the leftover `to_spend` after the withdrawal loop:
sum incomes; capture the retirement snapshot on the first step with zero
total income; sum expenses; split the net flow into `to_invest`/`to_spend`;
run the investment and withdrawal loops; set `bankrupt` if expenses were
not covered. -/
def simStepCore (E : ℚ → ℚ) (fu : Fund → ℚ → ℚ × Fund) (st : SimState)
    (year : ℚ) : SimState × ℚ :=
  let pi := updateAll E year st.income_models
  let retirement := if pi.1 = 0 ∧ st.retirement_value = none
    then some (totalAmount st.market_models) else st.retirement_value
  let pe := updateAll E year st.expense_models
  let to_invest := max (pi.1 - pe.1) 0
  let to_spend := max (pe.1 - pi.1) 0
  let qb := buyPass fu year st.market_models to_invest
  let qs := sellPass qb.1 to_spend
  let bankrupt := if 0 < qs.2 then true else st.bankrupt
  (⟨pi.2, pe.2, qs.1, bankrupt, retirement⟩, qs.2)

/-- One weekly timestep of `main` (simulate.cc:484-546). -/
def simStep (E : ℚ → ℚ) (fu : Fund → ℚ → ℚ × Fund) (st : SimState)
    (year : ℚ) : SimState :=
  (simStepCore E fu st year).1

/-- The timestep loop of one run (simulate.cc:481-547), over a given list
of step years. -/
def simRun (E : ℚ → ℚ) (fu : Fund → ℚ → ℚ × Fund) (st : SimState)
    (years : List ℚ) : SimState :=
  years.foldl (simStep E fu) st

/-- `PERIOD` (simulate.cc:480): `1 / 52.0` years per weekly step. -/
def PERIOD : ℚ := 1 / 52

/-- `year = i * PERIOD` for step `i` (simulate.cc:482). -/
def stepYear (i : ℕ) : ℚ := (i : ℚ) * PERIOD

/-- The loop `for (size_t i = 1; i < years / PERIOD; ++i)`
(simulate.cc:481) executes exactly the iterations whose index satisfies
the guard, starting from 1: the guard `(i : ℚ) < years / PERIOD` is
antitone in `i`, so the loop stops at the first failing index. -/
def loopExecutes (years : ℚ) (i : ℕ) : Prop :=
  1 ≤ i ∧ (i : ℚ) < years / PERIOD

instance (years : ℚ) (i : ℕ) : Decidable (loopExecutes years i) :=
  inferInstanceAs (Decidable (_ ∧ _))

/-- A sequence of `FundBase::buy` calls against one fund: each element
gives the current-year cursor at the time of the call (as moved by the
preceding `update_to`, simulate.cc:126) and the requested amount.  Returns
the sum of the absorbed amounts and the final fund state. -/
def buySeq (f : Fund) : List (ℚ × ℚ) → ℚ × Fund
  | [] => (0, f)
  | op :: ops =>
      let f1 : Fund := { f with year := op.1 }
      let p := FundBase.buy f1 op.2
      let q := buySeq p.2 ops
      (p.1 + q.1, q.2)

/-- A sequence of `Cost::update_to` calls: the sum of the disbursements and
the final state. -/
def runCost (c : ModelBase CostState) : List ℚ → ℚ × ModelBase CostState
  | [] => (0, c)
  | y :: ys =>
      let p := Cost.update_to c y
      let q := runCost p.2 ys
      (p.1 + q.1, q.2)

/-! ## Helper lemmas about `FundBase.buy` -/

lemma buy_amount_add (f : Fund) (a : ℚ) :
    (FundBase.buy f a).2.sub.amount = f.sub.amount + (FundBase.buy f a).1 := by
  unfold FundBase.buy
  split_ifs <;> simp

lemma buy_limit_eq (f : Fund) (a : ℚ) :
    (FundBase.buy f a).2.sub.contribution_limit = f.sub.contribution_limit := by
  unfold FundBase.buy
  split_ifs <;> simp

lemma buy_start_eq (f : Fund) (a : ℚ) :
    (FundBase.buy f a).2.start = f.start := by
  unfold FundBase.buy
  split_ifs <;> simp

lemma buy_year_eq (f : Fund) (a : ℚ) :
    (FundBase.buy f a).2.year = f.year := by
  unfold FundBase.buy
  split_ifs <;> simp

lemma buy_contributed_eq (f : Fund) (a : ℚ) (hl : 0 < f.sub.contribution_limit) :
    (FundBase.buy f a).2.sub.contributed ⌊f.year⌋ =
      f.sub.contributed ⌊f.year⌋ + (FundBase.buy f a).1 := by
  by_cases h1 : a < 0
  · simp [FundBase.buy, h1]
  · simp [FundBase.buy, h1, hl]

lemma buy_return_le (f : Fund) (a : ℚ) (hl : 0 < f.sub.contribution_limit)
    (hc : f.sub.contributed ⌊f.year⌋ ≤ f.sub.contribution_limit) :
    (FundBase.buy f a).1 ≤ f.sub.contribution_limit - f.sub.contributed ⌊f.year⌋ := by
  by_cases h1 : a < 0
  · simp only [FundBase.buy, if_pos h1]
    linarith
  · simp [FundBase.buy, h1, hl]

lemma buySeq_bound (ops : List (ℚ × ℚ)) : ∀ (f : Fund) (k : ℤ),
    0 < f.sub.contribution_limit →
    f.sub.contributed k ≤ f.sub.contribution_limit →
    (∀ p ∈ ops, ⌊p.1⌋ = k) →
    (buySeq f ops).1 ≤ f.sub.contribution_limit - f.sub.contributed k := by
  induction ops with
  | nil =>
      intro f k hl hc _
      simp only [buySeq]
      linarith
  | cons op ops ih =>
      intro f k hl hc hall
      have hk : ⌊op.1⌋ = k := hall op (by simp)
      have hf1y : ⌊(({ f with year := op.1 } : Fund)).year⌋ = k := hk
      have hr := buy_return_le { f with year := op.1 } op.2 hl (by rw [hf1y]; exact hc)
      rw [hf1y] at hr
      have hcon2 : (FundBase.buy { f with year := op.1 } op.2).2.sub.contributed k =
          f.sub.contributed k + (FundBase.buy { f with year := op.1 } op.2).1 := by
        rw [← hf1y]
        exact buy_contributed_eq { f with year := op.1 } op.2 hl
      have hlim2 := buy_limit_eq ({ f with year := op.1 } : Fund) op.2
      have ihx := ih (FundBase.buy { f with year := op.1 } op.2).2 k
        (by rw [hlim2]; exact hl)
        (by rw [hcon2, hlim2]; linarith)
        (fun p hp => hall p (by simp [hp]))
      rw [hlim2, hcon2] at ihx
      simp only [buySeq]
      linarith

lemma buySeq_amount (ops : List (ℚ × ℚ)) : ∀ f : Fund,
    (buySeq f ops).2.sub.amount = f.sub.amount + (buySeq f ops).1 := by
  induction ops with
  | nil => intro f; simp [buySeq]
  | cons op ops ih =>
      intro f
      simp only [buySeq]
      rw [ih, buy_amount_add]
      ring

end Lifesim

namespace Lifesim

/-! ## Helper lemmas about `Cost.update_to` -/

lemma cost_step_telescope (c : ModelBase CostState) (y : ℚ) :
    (Cost.update_to c y).1 + (Cost.update_to c y).2.sub.remaining +
      (Cost.update_to c y).2.sub.close = c.sub.remaining + c.sub.close := by
  unfold Cost.update_to
  dsimp only
  split_ifs <;> simp only <;> ring

lemma cost_step_start (c : ModelBase CostState) (y : ℚ) :
    (Cost.update_to c y).2.start = c.start := by
  unfold Cost.update_to
  dsimp only
  split_ifs <;> rfl

lemma cost_step_duration (c : ModelBase CostState) (y : ℚ) :
    (Cost.update_to c y).2.duration = c.duration := by
  unfold Cost.update_to
  dsimp only
  split_ifs <;> rfl

lemma cost_step_end (c : ModelBase CostState) (y : ℚ) :
    (Cost.update_to c y).2.end_ = c.end_ := by
  unfold ModelBase.end_
  rw [cost_step_start, cost_step_duration]

lemma cost_flush_eq (c : ModelBase CostState) (y : ℚ)
    (h1 : ¬ y < c.start) (h2 : c.end_ < y) :
    Cost.update_to c y = (c.sub.remaining + c.sub.close,
      { c with year := y, sub := { c.sub with remaining := 0, close := 0 } }) := by
  unfold Cost.update_to
  dsimp only
  split_ifs with hA hB
  · rfl
  · exact absurd h2 hA
  · exact absurd h2 hA

lemma runCost_telescope (ys : List ℚ) : ∀ c : ModelBase CostState,
    (runCost c ys).1 + (runCost c ys).2.sub.remaining + (runCost c ys).2.sub.close =
      c.sub.remaining + c.sub.close := by
  induction ys with
  | nil => intro c; simp [runCost]
  | cons y ys ih =>
      intro c
      simp only [runCost]
      have h1 := cost_step_telescope c y
      have h2 := ih (Cost.update_to c y).2
      linarith

lemma runCost_flushed (ys : List ℚ) : ∀ c : ModelBase CostState,
    0 ≤ c.duration → (∀ y ∈ ys, c.end_ < y) →
    c.sub.remaining = 0 → c.sub.close = 0 →
    (runCost c ys).2.sub.remaining = 0 ∧ (runCost c ys).2.sub.close = 0 := by
  induction ys with
  | nil =>
      intro c _ _ hr hc
      exact ⟨hr, hc⟩
  | cons y ys ih =>
      intro c hd hall hr hc
      have hy : c.end_ < y := hall y (List.mem_cons_self y ys)
      have hse : c.start ≤ c.end_ := by
        unfold ModelBase.end_
        linarith
      have h1 : ¬ y < c.start := not_lt.mpr (hse.trans hy.le)
      simp only [runCost, cost_flush_eq c y h1 hy]
      refine ih _ hd ?_ rfl rfl
      intro z hz
      simpa [ModelBase.end_] using hall z (List.mem_cons_of_mem y hz)

lemma runCost_zero (ys : List ℚ) : ∀ c : ModelBase CostState,
    0 ≤ c.duration → ys.Sorted (· ≤ ·) → (∃ y ∈ ys, c.end_ < y) →
    (runCost c ys).2.sub.remaining = 0 ∧ (runCost c ys).2.sub.close = 0 := by
  induction ys with
  | nil =>
      intro c _ _ h
      simp at h
  | cons y ys ih =>
      intro c hd hs hex
      rw [List.sorted_cons] at hs
      by_cases hy : c.end_ < y
      · have hse : c.start ≤ c.end_ := by
          unfold ModelBase.end_
          linarith
        have h1 : ¬ y < c.start := not_lt.mpr (hse.trans hy.le)
        simp only [runCost, cost_flush_eq c y h1 hy]
        refine runCost_flushed ys _ hd ?_ rfl rfl
        intro z hz
        have : y ≤ z := hs.1 z hz
        simpa [ModelBase.end_] using lt_of_lt_of_le hy this
      · obtain ⟨z, hz, hzlt⟩ := hex
        rcases List.mem_cons.mp hz with rfl | hz'
        · exact absurd hzlt hy
        · simp only [runCost]
          refine ih _ ?_ hs.2 ?_
          · rw [cost_step_duration]
            exact hd
          · exact ⟨z, hz', by rw [cost_step_end]; exact hzlt⟩

/-! ## Claim theorems -/

/-- C7: `FundBase::sell` returns 0 and changes nothing when the fund is
not yet active (`currentYear < start`) or when the requested amount is
negative; otherwise it returns `min(requested, balance)`, decreases the
balance by exactly the returned amount, and the balance never becomes
negative (given a non-negative balance, as holds by construction). -/
theorem sell_spec (f : Fund) (a : ℚ) :
    ((f.year < f.start ∨ a < 0) → FundBase.sell f a = (0, f)) ∧
    (f.start ≤ f.year → 0 ≤ a → 0 ≤ f.sub.amount →
      (FundBase.sell f a).1 = min a f.sub.amount ∧
      (FundBase.sell f a).2.sub.amount = f.sub.amount - (FundBase.sell f a).1 ∧
      0 ≤ (FundBase.sell f a).2.sub.amount) := by
  constructor
  · rintro (h | h) <;> unfold FundBase.sell
    · rw [if_pos h]
    · split_ifs <;> rfl
  · intro hs ha hb
    unfold FundBase.sell
    rw [if_neg (not_lt.mpr hs), if_neg (not_lt.mpr ha)]
    by_cases h : a ≤ f.sub.amount
    · rw [if_pos h]
      refine ⟨(min_eq_left h).symm, rfl, ?_⟩
      simp only
      linarith
    · rw [if_neg h]
      push_neg at h
      refine ⟨(min_eq_right h.le).symm, ?_, le_refl 0⟩
      simp only
      ring

theorem sell_spec_witness :
    (FundBase.sell ⟨0, 10, 1, ⟨0, 100, fun _ => 0⟩⟩ 30).1 = min 30 (100 : ℚ) ∧
    (FundBase.sell ⟨0, 10, 1, ⟨0, 100, fun _ => 0⟩⟩ (30 : ℚ)).2.sub.amount =
      100 - (FundBase.sell ⟨0, 10, 1, ⟨0, 100, fun _ => 0⟩⟩ (30 : ℚ)).1 ∧
    0 ≤ (FundBase.sell ⟨0, 10, 1, ⟨0, 100, fun _ => 0⟩⟩ (30 : ℚ)).2.sub.amount :=
  (sell_spec ⟨0, 10, 1, ⟨0, 100, fun _ => 0⟩⟩ 30).2 (by norm_num) (by norm_num) (by norm_num)

/-- C10: `FundBase::buy` performs no activation-window check: for a
non-negative request it absorbs the contribution subject only to the
contribution-limit cap and adds the absorbed amount to the balance,
independently of the fund's `start`; in contrast `FundBase::sell` returns
0 unchanged when `currentYear < start`. -/
theorem buy_ignores_window (f : Fund) (a : ℚ) (ha : 0 ≤ a) :
    (FundBase.buy f a).1 =
      (if 0 < f.sub.contribution_limit
        then min a (f.sub.contribution_limit - f.sub.contributed ⌊f.year⌋)
        else a) ∧
    (FundBase.buy f a).2.sub.amount = f.sub.amount + (FundBase.buy f a).1 ∧
    (∀ s : ℚ, (FundBase.buy { f with start := s } a).1 = (FundBase.buy f a).1 ∧
      (FundBase.buy { f with start := s } a).2.sub.amount =
        (FundBase.buy f a).2.sub.amount) ∧
    (f.year < f.start → FundBase.sell f a = (0, f)) := by
  have hna : ¬ a < 0 := not_lt.mpr ha
  refine ⟨?_, buy_amount_add f a, ?_, ?_⟩
  · by_cases hl : 0 < f.sub.contribution_limit <;> simp [FundBase.buy, hna, hl]
  · intro s
    constructor <;>
      by_cases hl : 0 < f.sub.contribution_limit <;> simp [FundBase.buy, hna, hl]
  · intro hy
    unfold FundBase.sell
    rw [if_pos hy]

theorem buy_ignores_window_witness :
    (FundBase.buy ⟨5, 10, 0, ⟨0, 7, fun _ => 0⟩⟩ (2 : ℚ)).1 =
      (if 0 < (0 : ℚ) then min 2 (0 - 0) else 2) ∧
    (FundBase.buy ⟨5, 10, 0, ⟨0, 7, fun _ => 0⟩⟩ (2 : ℚ)).2.sub.amount =
      7 + (FundBase.buy ⟨5, 10, 0, ⟨0, 7, fun _ => 0⟩⟩ (2 : ℚ)).1 ∧
    (∀ s : ℚ, (FundBase.buy { (⟨5, 10, 0, ⟨0, 7, fun _ => 0⟩⟩ : Fund) with start := s } (2 : ℚ)).1 =
        (FundBase.buy ⟨5, 10, 0, ⟨0, 7, fun _ => 0⟩⟩ (2 : ℚ)).1 ∧
      (FundBase.buy { (⟨5, 10, 0, ⟨0, 7, fun _ => 0⟩⟩ : Fund) with start := s } (2 : ℚ)).2.sub.amount =
        (FundBase.buy ⟨5, 10, 0, ⟨0, 7, fun _ => 0⟩⟩ (2 : ℚ)).2.sub.amount) ∧
    ((0 : ℚ) < 5 → FundBase.sell ⟨5, 10, 0, ⟨0, 7, fun _ => 0⟩⟩ (2 : ℚ) =
      (0, ⟨5, 10, 0, ⟨0, 7, fun _ => 0⟩⟩)) :=
  buy_ignores_window ⟨5, 10, 0, ⟨0, 7, fun _ => 0⟩⟩ 2 (by norm_num)

/-- C5: for a fund with a positive contribution limit and a fresh
contribution bucket for calendar year `k`, any sequence of `buy` calls
whose cursor truncates to `k` absorbs at most `limit` in total, and every
absorbed amount is added to the balance. -/
theorem buy_contribution_limit (f : Fund) (ops : List (ℚ × ℚ)) (k : ℤ)
    (hl : 0 < f.sub.contribution_limit)
    (hc : f.sub.contributed k = 0)
    (hall : ∀ p ∈ ops, ⌊p.1⌋ = k) :
    (buySeq f ops).1 ≤ f.sub.contribution_limit ∧
    (buySeq f ops).2.sub.amount = f.sub.amount + (buySeq f ops).1 := by
  constructor
  · have h := buySeq_bound ops f k hl (by rw [hc]; exact le_of_lt hl) hall
    rw [hc] at h
    linarith
  · exact buySeq_amount ops f

theorem buy_contribution_limit_witness :
    (buySeq ⟨0, 1, 0, ⟨5000, 0, fun _ => 0⟩⟩
      [((1 : ℚ) / 2, 3000), ((3 : ℚ) / 5, 4000)]).1 ≤ (5000 : ℚ) ∧
    (buySeq (⟨0, 1, 0, ⟨5000, 0, fun _ => 0⟩⟩ : Fund)
      [((1 : ℚ) / 2, 3000), ((3 : ℚ) / 5, 4000)]).2.sub.amount =
      0 + (buySeq (⟨0, 1, 0, ⟨5000, 0, fun _ => 0⟩⟩ : Fund)
        [((1 : ℚ) / 2, 3000), ((3 : ℚ) / 5, 4000)]).1 :=
  buy_contribution_limit ⟨0, 1, 0, ⟨5000, 0, fun _ => 0⟩⟩
    [((1 : ℚ) / 2, 3000), ((3 : ℚ) / 5, 4000)] 0
    (by norm_num) rfl
    (by intro p hp; fin_cases hp <;> norm_num [Int.floor_eq_iff])

/-- C3 counterexample: with `start = 0`, `duration = 1` (so `end = 1`),
`total = remaining = 10`, `down = 0`, `close = 5`, a call at `year = 1`
(exactly the window end) does NOT flush: `Cost::update_to` only flushes
for `year > end` (simulate.cc:335), so this call amortizes 10 and leaves
`close = 5`, instead of returning `remaining + close = 15` and zeroing
both as the claim requires. -/
theorem cost_at_end_counterexample :
    (Cost.update_to ⟨0, 1, 0, ⟨10, 10, 0, 5⟩⟩ (1 : ℚ)).1 = 10 ∧
    (Cost.update_to ⟨0, 1, 0, ⟨10, 10, 0, 5⟩⟩ (1 : ℚ)).2.sub.close = 5 ∧
    ¬((Cost.update_to ⟨0, 1, 0, ⟨10, 10, 0, 5⟩⟩ (1 : ℚ)).1 = 10 + 5 ∧
      (Cost.update_to ⟨0, 1, 0, ⟨10, 10, 0, 5⟩⟩ (1 : ℚ)).2.sub.close = 0) := by
  norm_num [Cost.update_to, ModelBase.end_]

/-- C3 (amended): a `Cost::update_to` call with `year` STRICTLY after the
window end returns `remaining + close` and zeroes both, and a subsequent
(non-decreasing) call returns 0 — idempotent after the first trigger.
(The window is assumed non-degenerate, `0 ≤ duration`, so that a
past-the-end year is not also before `start`.) -/
theorem cost_flush_after_end (c : ModelBase CostState) (y y' : ℚ)
    (hd : 0 ≤ c.duration) (hy : c.end_ < y) (hy' : y ≤ y') :
    (Cost.update_to c y).1 = c.sub.remaining + c.sub.close ∧
    (Cost.update_to c y).2.sub.remaining = 0 ∧
    (Cost.update_to c y).2.sub.close = 0 ∧
    (Cost.update_to (Cost.update_to c y).2 y').1 = 0 := by
  have hse : c.start ≤ c.end_ := by
    unfold ModelBase.end_
    linarith
  have h1 : ¬ y < c.start := not_lt.mpr (hse.trans hy.le)
  have e1 := cost_flush_eq c y h1 hy
  refine ⟨by rw [e1], by rw [e1], by rw [e1], ?_⟩
  have hst := cost_step_start c y
  have hen := cost_step_end c y
  have hrem : (Cost.update_to c y).2.sub.remaining = 0 := by rw [e1]
  have hclo : (Cost.update_to c y).2.sub.close = 0 := by rw [e1]
  rw [cost_flush_eq (Cost.update_to c y).2 y'
    (by rw [hst]; exact not_lt.mpr (hse.trans (hy.le.trans hy')))
    (by rw [hen]; exact lt_of_lt_of_le hy hy')]
  show (Cost.update_to c y).2.sub.remaining + (Cost.update_to c y).2.sub.close = 0
  rw [hrem, hclo]
  norm_num

theorem cost_flush_after_end_witness :
    (Cost.update_to ⟨0, 1, 0, ⟨10, 10, 0, 5⟩⟩ (2 : ℚ)).1 = 10 + 5 ∧
    (Cost.update_to ⟨0, 1, 0, ⟨10, 10, 0, 5⟩⟩ (2 : ℚ)).2.sub.remaining = 0 ∧
    (Cost.update_to ⟨0, 1, 0, ⟨10, 10, 0, 5⟩⟩ (2 : ℚ)).2.sub.close = 0 ∧
    (Cost.update_to (Cost.update_to ⟨0, 1, 0, ⟨10, 10, 0, 5⟩⟩ (2 : ℚ)).2 (3 : ℚ)).1 = 0 :=
  cost_flush_after_end ⟨0, 1, 0, ⟨10, 10, 0, 5⟩⟩ 2 3 (by norm_num)
    (by norm_num [ModelBase.end_]) (by norm_num)

/-- C6: starting from the configured coupling `remaining = total`
(simulate.cc:314), running a `Cost` through any non-decreasing sequence of
years that eventually passes strictly beyond the window end disburses
exactly `down + (total - down) + close` in total, and `remaining` is
exactly 0 once the close has been disbursed. -/
theorem cost_total_disbursement (c : ModelBase CostState) (ys : List ℚ)
    (hinit : c.sub.remaining = c.sub.total) (hd : 0 ≤ c.duration)
    (hs : ys.Sorted (· ≤ ·)) (hex : ∃ y ∈ ys, c.end_ < y) :
    (runCost c ys).1 = c.sub.down + (c.sub.total - c.sub.down) + c.sub.close ∧
    (runCost c ys).2.sub.remaining = 0 := by
  obtain ⟨hr0, hc0⟩ := runCost_zero ys c hd hs hex
  have ht := runCost_telescope ys c
  rw [hr0, hc0, hinit] at ht
  exact ⟨by linarith, hr0⟩

theorem cost_total_disbursement_witness :
    (runCost ⟨0, 1, 0, ⟨10, 10, 3, 5⟩⟩ [(1 : ℚ) / 2, 2]).1 = 3 + (10 - 3) + 5 ∧
    (runCost ⟨0, 1, 0, ⟨10, 10, 3, 5⟩⟩ [(1 : ℚ) / 2, 2]).2.sub.remaining = 0 :=
  cost_total_disbursement ⟨0, 1, 0, ⟨10, 10, 3, 5⟩⟩ [(1 : ℚ) / 2, 2] rfl
    (by norm_num)
    (by simp [List.sorted_cons]; norm_num)
    ⟨2, by simp, by norm_num [ModelBase.end_]⟩

/-- C4: `MarketFund::lookup` with a non-negative day value
`year * 365.25 + day_offset` and day index `before` its floor: below the
sample count it returns the sample; from one to two times the sample count
it returns `wrap_around_multiplier * sample[before mod size]` with the
multiplier `sample[size-1]/sample[0]`; and it fails (throws) exactly
when `before` reaches twice the sample count. -/
theorem lookup_spec (data : List ℚ) (day_offset year : ℚ)
    (hday : 0 ≤ year * (1461 / 4) + day_offset) :
    (⌊year * (1461 / 4) + day_offset⌋ < (data.length : ℤ) →
      MarketFund.lookup data day_offset year =
        some (data.getD (⌊year * (1461 / 4) + day_offset⌋).toNat 0)) ∧
    ((data.length : ℤ) ≤ ⌊year * (1461 / 4) + day_offset⌋ →
      ⌊year * (1461 / 4) + day_offset⌋ < 2 * (data.length : ℤ) →
      MarketFund.lookup data day_offset year =
        some (wrap_around_multiplier data *
          data.getD ((⌊year * (1461 / 4) + day_offset⌋).toNat % data.length) 0)) ∧
    (MarketFund.lookup data day_offset year = none ↔
      2 * (data.length : ℤ) ≤ ⌊year * (1461 / 4) + day_offset⌋) := by
  have h0 : 0 ≤ ⌊year * (1461 / 4) + day_offset⌋ := Int.floor_nonneg.mpr hday
  have hnz : ((⌊year * (1461 / 4) + day_offset⌋).toNat : ℤ) =
      ⌊year * (1461 / 4) + day_offset⌋ := Int.toNat_of_nonneg h0
  refine ⟨?_, ?_, ?_⟩
  · intro h
    have hlt : (⌊year * (1461 / 4) + day_offset⌋).toNat < data.length := by omega
    unfold MarketFund.lookup
    dsimp only
    rw [dif_pos hlt, List.get_eq_getElem, List.getD_eq_getElem data 0 hlt]
  · intro ha hb
    have hge : data.length ≤ (⌊year * (1461 / 4) + day_offset⌋).toNat := by omega
    have hlt2 : (⌊year * (1461 / 4) + day_offset⌋).toNat < 2 * data.length := by omega
    have hmod : (⌊year * (1461 / 4) + day_offset⌋).toNat % data.length < data.length :=
      Nat.mod_lt _ (by omega)
    unfold MarketFund.lookup
    dsimp only
    rw [dif_neg (not_lt.mpr hge), dif_neg (not_le.mpr hlt2), List.get_eq_getElem,
      List.getD_eq_getElem data 0 hmod]
  · constructor
    · intro hnone
      by_contra hlt
      push_neg at hlt
      unfold MarketFund.lookup at hnone
      dsimp only at hnone
      by_cases hin : (⌊year * (1461 / 4) + day_offset⌋).toNat < data.length
      · rw [dif_pos hin] at hnone
        exact Option.noConfusion hnone
      · have hlt2 : (⌊year * (1461 / 4) + day_offset⌋).toNat < 2 * data.length := by omega
        rw [dif_neg hin, dif_neg (not_le.mpr hlt2)] at hnone
        exact Option.noConfusion hnone
    · intro hge
      have hge' : 2 * data.length ≤ (⌊year * (1461 / 4) + day_offset⌋).toNat := by omega
      unfold MarketFund.lookup
      dsimp only
      rw [dif_neg (by omega), dif_pos hge']

theorem lookup_spec_witness :
    (⌊(0 : ℚ) * (1461 / 4) + 4⌋ < (([2, 3, 4] : List ℚ).length : ℤ) →
      MarketFund.lookup [2, 3, 4] 4 0 =
        some (([2, 3, 4] : List ℚ).getD (⌊(0 : ℚ) * (1461 / 4) + 4⌋).toNat 0)) ∧
    ((([2, 3, 4] : List ℚ).length : ℤ) ≤ ⌊(0 : ℚ) * (1461 / 4) + 4⌋ →
      ⌊(0 : ℚ) * (1461 / 4) + 4⌋ < 2 * (([2, 3, 4] : List ℚ).length : ℤ) →
      MarketFund.lookup [2, 3, 4] 4 0 =
        some (wrap_around_multiplier [2, 3, 4] *
          ([2, 3, 4] : List ℚ).getD ((⌊(0 : ℚ) * (1461 / 4) + 4⌋).toNat % ([2, 3, 4] : List ℚ).length) 0)) ∧
    (MarketFund.lookup [2, 3, 4] 4 0 = none ↔
      2 * (([2, 3, 4] : List ℚ).length : ℤ) ≤ ⌊(0 : ℚ) * (1461 / 4) + 4⌋) :=
  lookup_spec [2, 3, 4] 4 0 (by norm_num)

/-- C8 counterexample: `Cost` is a non-Fund model, yet at `year = 2`,
outside its window `[0, 1)`, its `advanceTo` returns 15 (not 0) and
mutates `remaining` and `close` (not just the cursor), because
`Cost::update_to` overrides the base dispatch (simulate.cc:330-355). -/
theorem cost_breaks_base_frame :
    (Cost.update_to ⟨0, 1, 0, ⟨10, 10, 0, 5⟩⟩ (2 : ℚ)).1 ≠ 0 ∧
    (Cost.update_to ⟨0, 1, 0, ⟨10, 10, 0, 5⟩⟩ (2 : ℚ)).2.sub.close ≠ 5 := by
  norm_num [Cost.update_to, ModelBase.end_]

/-- C8 (amended): every model dispatching through `ModelBase::update_to`
(`Job` and `Spending`; `Cost` overrides it) returns 0 and leaves all state
except the time cursor unchanged when the year is outside
`[start, start+duration)` or `dt ≤ 0`; the cursor is set to the query year
unconditionally on every call. -/
theorem base_update_frame {σ : Type} (upd : ℚ → ℚ → σ → ℚ × σ)
    (m : ModelBase σ) (y : ℚ) :
    ((y < m.start ∨ m.end_ ≤ y ∨ y - m.year ≤ 0) →
      ModelBase.update_to upd m y = (0, { m with year := y })) ∧
    (ModelBase.update_to upd m y).2.year = y := by
  constructor
  · intro h
    unfold ModelBase.update_to
    dsimp only
    split_ifs with h1 h2 h3
    · rfl
    · rfl
    · rfl
    · rcases h with h | h | h
      · exact absurd h h1
      · exact absurd h h2
      · exact absurd h h3
  · unfold ModelBase.update_to
    dsimp only
    split_ifs <;> rfl

theorem base_update_frame_witness :
    ModelBase.update_to (Job.update fun q => q + 1) ⟨0, 1, 0, ⟨50000, 0⟩⟩ (5 : ℚ) =
      (0, { (⟨0, 1, 0, ⟨50000, 0⟩⟩ : ModelBase JobState) with year := (5 : ℚ) }) ∧
    (ModelBase.update_to (Job.update fun q => q + 1)
      ⟨0, 1, 0, ⟨50000, 0⟩⟩ (5 : ℚ)).2.year = 5 :=
  ⟨(base_update_frame (Job.update fun q => q + 1) ⟨0, 1, 0, ⟨50000, 0⟩⟩ 5).1
      (Or.inr (Or.inl (by norm_num [ModelBase.end_]))),
    (base_update_frame (Job.update fun q => q + 1) ⟨0, 1, 0, ⟨50000, 0⟩⟩ 5).2⟩

/-- C2 counterexample: for `years = 1` the claim's range runs up to
`floor(years / dt) = 52` inclusive, but the loop guard
`i < years / PERIOD` (simulate.cc:481) is strict, so iteration 52 is not
executed. -/
theorem loop_excludes_final_step :
    (52 : ℤ) ≤ ⌊(1 : ℚ) / PERIOD⌋ ∧ ¬ loopExecutes 1 52 := by
  constructor
  · norm_num [PERIOD]
  · intro h
    have h2 := h.2
    norm_num [PERIOD] at h2

/-- C2 (amended): the weekly loop executes exactly the indices `i ≥ 1`
with `i` STRICTLY below `years / PERIOD`: equivalently, `1 ≤ i ≤
floor(years/PERIOD)` and `i ≠ years/PERIOD`, so when `years/PERIOD` is an
exact integer the final index `floor(years/PERIOD)` itself is excluded.
Each executed step simulates year `i * PERIOD = i / 52`. -/
theorem loop_index_range (years : ℚ) (i : ℕ) :
    (loopExecutes years i ↔
      1 ≤ i ∧ (i : ℤ) ≤ ⌊years / PERIOD⌋ ∧ (i : ℚ) ≠ years / PERIOD) ∧
    stepYear i = (i : ℚ) / 52 := by
  constructor
  · unfold loopExecutes
    constructor
    · rintro ⟨h1, h2⟩
      refine ⟨h1, Int.le_floor.mpr (by exact_mod_cast h2.le), ne_of_lt h2⟩
    · rintro ⟨h1, h2, h3⟩
      refine ⟨h1, lt_of_le_of_ne ?_ h3⟩
      calc (i : ℚ) ≤ (⌊years / PERIOD⌋ : ℚ) := by exact_mod_cast h2
        _ ≤ years / PERIOD := Int.floor_le _
  · unfold stepYear PERIOD
    ring

theorem loop_index_range_witness :
    (loopExecutes 2 1 ↔
      1 ≤ 1 ∧ ((1 : ℕ) : ℤ) ≤ ⌊(2 : ℚ) / PERIOD⌋ ∧ ((1 : ℕ) : ℚ) ≠ 2 / PERIOD) ∧
    stepYear 1 = ((1 : ℕ) : ℚ) / 52 :=
  loop_index_range 2 1

/-- C1: evaluation of the driver's allocation loops at a failing input for
the claimed priority order.  Two unlimited funds (fund 0 listed first,
fund 1 second; zero-rate growth), a surplus `to_invest = 100`: the buy
loop (simulate.cc:522-529, index `reverse_i = size-1-i`) gives the whole
100 to fund 1, the LAST-listed fund, leaving fund 0 at 0.  Two funds
holding 100 each and a deficit `to_spend = 150`: the sell loop
(simulate.cc:530-537, forward index) drains fund 0, the FIRST-listed fund,
first (to 0) and then takes 50 from fund 1.  Both orders are the reverse
of the claimed ones (and of the comment at simulate.cc:439). -/
theorem fund_order_at_failing_input :
    ((buyPass (FundBase.update_to (FixedRateFund.update_amount (fun _ => 1) 0)) 1
        [⟨0, 10, 0, ⟨0, 0, fun _ => 0⟩⟩, ⟨0, 10, 0, ⟨0, 0, fun _ => 0⟩⟩] 100).1.map
      fun f => f.sub.amount) = [0, 100] ∧
    (buyPass (FundBase.update_to (FixedRateFund.update_amount (fun _ => 1) 0)) 1
        [⟨0, 10, 0, ⟨0, 0, fun _ => 0⟩⟩, ⟨0, 10, 0, ⟨0, 0, fun _ => 0⟩⟩] 100).2 = 0 ∧
    ((sellPass [⟨0, 10, 1, ⟨0, 100, fun _ => 0⟩⟩, ⟨0, 10, 1, ⟨0, 100, fun _ => 0⟩⟩]
        150).1.map fun f => f.sub.amount) = [0, 50] ∧
    (sellPass [⟨0, 10, 1, ⟨0, 100, fun _ => 0⟩⟩, ⟨0, 10, 1, ⟨0, 100, fun _ => 0⟩⟩]
        150).2 = 0 := by
  norm_num [buyPass, sellPass, FundBase.buy, FundBase.sell, FundBase.update_to,
    FixedRateFund.update_amount]

/-- C9: within one run the bankrupt flag starts false
(simulate.cc:477), each step ends with `bankrupt = old ∨ (leftover
to_spend > 0)` (simulate.cc:539-542), and once true it remains true at
every later step of the run. -/
theorem bankrupt_monotone :
    (∀ (incomes expenses : List AnyModel) (funds : List Fund),
      (SimState.init incomes expenses funds).bankrupt = false) ∧
    (∀ (E : ℚ → ℚ) (fu : Fund → ℚ → ℚ × Fund) (st : SimState) (y : ℚ),
      (simStep E fu st y).bankrupt =
        (st.bankrupt || decide (0 < (simStepCore E fu st y).2))) ∧
    (∀ (E : ℚ → ℚ) (fu : Fund → ℚ → ℚ × Fund) (st : SimState) (ys : List ℚ),
      st.bankrupt = true → (simRun E fu st ys).bankrupt = true) := by
  have hstep : ∀ (E : ℚ → ℚ) (fu : Fund → ℚ → ℚ × Fund) (st : SimState) (y : ℚ),
      (simStep E fu st y).bankrupt =
        if 0 < (simStepCore E fu st y).2 then true else st.bankrupt := fun _ _ _ _ => rfl
  refine ⟨fun _ _ _ => rfl, ?_, ?_⟩
  · intro E fu st y
    rw [hstep]
    by_cases h : 0 < (simStepCore E fu st y).2 <;> simp [h]
  · intro E fu st ys h
    induction ys generalizing st with
    | nil => exact h
    | cons y ys ih =>
        refine ih (simStep E fu st y) ?_
        rw [hstep]
        split_ifs <;> simp [h]

theorem bankrupt_monotone_witness :
    (simRun (fun q => q) (fun f _ => (f.sub.amount, f)) ⟨[], [], [], true, none⟩
      [1]).bankrupt = true :=
  bankrupt_monotone.2.2 (fun q => q) (fun f _ => (f.sub.amount, f))
    ⟨[], [], [], true, none⟩ [1] rfl

end Lifesim
